import Mathlib

/-!
Shallow embedding of the STR-tree 3D core of this repository:
`src/geom/Envelope3d.cpp`, `src/index/strtree/SimpleSTRnode3d.cpp` and
`src/include/geos/index/strtree/SimpleSTRtree.h`.

Scalars: the C++ code stores envelope extents as `double`; the embedding
models them as exact integers (`Int`), which is faithful for every
order-theoretic and arithmetic fact used below (no rounding is involved
in the compared operations). For the textual format, printing models
the default `std::ostream` formatting of a `double` (`%g` semantics,
6 significant digits: plain decimal for integral magnitudes below
10^6, rounded scientific notation above), and parsing models the
decimal grammar of C `strtod` (sign, digits, optional fraction and
exponent); a parsed value with a negative net power of ten can be
non-integral in C, which lies outside the exact-integer scalar domain
and is truncated here — no theorem below evaluates the parser there.
-/

namespace GeosSpec

/-- The 3D axis-aligned envelope, mirroring the fields of
`geos::geom::Envelope3d` (`minx, maxx, miny, maxy, minz, maxz`). -/
structure Envelope3d where
  minx : Int
  maxx : Int
  miny : Int
  maxy : Int
  minz : Int
  maxz : Int
deriving DecidableEq, Repr

/-- Modelled from the spec: `Envelope3d.h` is not under `src/`; the null
(empty) state follows the GEOS `setToNull` convention, `minx=0, maxx=-1`
on every axis, and `isNull` tests `maxx < minx`. -/
def Envelope3d.setToNullValue : Envelope3d :=
  ⟨0, -1, 0, -1, 0, -1⟩

/-- Modelled from the spec: `Envelope3d.h` is not under `src/`; a box is
null when it represents the identity of expand-to-include, tested as
`maxx < minx` per the GEOS convention. -/
def Envelope3d.isNull (e : Envelope3d) : Prop :=
  e.maxx < e.minx

instance (e : Envelope3d) : Decidable e.isNull :=
  inferInstanceAs (Decidable (e.maxx < e.minx))

/-- The data-model invariant of the spec: for a non-null box,
`min ≤ max` on every axis. -/
def Envelope3d.proper (e : Envelope3d) : Prop :=
  e.minx ≤ e.maxx ∧ e.miny ≤ e.maxy ∧ e.minz ≤ e.maxz

instance (e : Envelope3d) : Decidable e.proper :=
  inferInstanceAs (Decidable (_ ∧ _ ∧ _))

/-- Modelled from the spec: `Envelope3d.h` is not under `src/`;
`init(x1, x2, y1, y2, z1, z2)` normalizes each axis so that
`min ≤ max`, per the GEOS `Envelope::init` convention. -/
def Envelope3d.init (x1 x2 y1 y2 z1 z2 : Int) : Envelope3d :=
  ⟨min x1 x2, max x1 x2, min y1 y2, max y1 y2, min z1 z2, max z1 z2⟩

/-- `Envelope3d::covers` from `Envelope3d.cpp`: the other envelope is
fully contained on every axis. -/
def Envelope3d.covers (self other : Envelope3d) : Prop :=
  other.minx ≥ self.minx ∧
  other.maxx ≤ self.maxx ∧
  other.miny ≥ self.miny ∧
  other.maxy ≤ self.maxy ∧
  other.minz ≥ self.minz ∧
  other.maxz ≤ self.maxz

instance (a b : Envelope3d) : Decidable (a.covers b) :=
  inferInstanceAs (Decidable (_ ∧ _ ∧ _ ∧ _ ∧ _ ∧ _))

/-- Modelled from the spec: `Envelope3d.h` is not under `src/`;
`intersects(other)` is true iff the two volumes overlap on every axis
(touching counts), and is always false against a null box (§3, §4.1). -/
def Envelope3d.intersects (self other : Envelope3d) : Prop :=
  ¬ self.isNull ∧ ¬ other.isNull ∧
  other.minx ≤ self.maxx ∧ other.maxx ≥ self.minx ∧
  other.miny ≤ self.maxy ∧ other.maxy ≥ self.miny ∧
  other.minz ≤ self.maxz ∧ other.maxz ≥ self.minz

instance (a b : Envelope3d) : Decidable (a.intersects b) :=
  inferInstanceAs (Decidable (_ ∧ _ ∧ _ ∧ _ ∧ _ ∧ _ ∧ _ ∧ _))

/-- Modelled from the spec: `Envelope3d.h` is not under `src/`;
`expandToInclude(other)` mutates to the minimal covering volume,
a no-op when `other` is null, and adopts `other` when `self` is null. -/
def Envelope3d.expandToInclude (self other : Envelope3d) : Envelope3d :=
  if other.isNull then self
  else if self.isNull then other
  else ⟨min self.minx other.minx, max self.maxx other.maxx,
        min self.miny other.miny, max self.maxy other.maxy,
        min self.minz other.minz, max self.maxz other.maxz⟩

/-- `Envelope3d::intersection` from `Envelope3d.cpp`: the C++ signature
`bool intersection(const Envelope3d&, Envelope3d& result)` (false means
the out-parameter is left unwritten) is embedded as an `Option`. -/
def Envelope3d.intersection (self env : Envelope3d) : Option Envelope3d :=
  if self.isNull ∨ env.isNull ∨ ¬ self.intersects env then none
  else
    some (Envelope3d.init
      (max self.minx env.minx) (min self.maxx env.maxx)
      (max self.miny env.miny) (min self.maxy env.maxy)
      (max self.minz env.minz) (min self.maxz env.maxz))

/-- `Envelope3d::expandBy` from `Envelope3d.cpp`: shift each min down and
each max up by the axis delta, then `setToNull()` if the envelope
disappeared (min exceeds max on some axis). -/
def Envelope3d.expandBy (e : Envelope3d) (deltaX deltaY deltaZ : Int) : Envelope3d :=
  let e1 : Envelope3d :=
    ⟨e.minx - deltaX, e.maxx + deltaX,
     e.miny - deltaY, e.maxy + deltaY,
     e.minz - deltaZ, e.maxz + deltaZ⟩
  if e1.minx > e1.maxx ∨ e1.miny > e1.maxy ∨ e1.minz > e1.maxz then
    Envelope3d.setToNullValue
  else
    e1

/-- `operator<(const Envelope3d&, const Envelope3d&)` from
`Envelope3d.cpp`: null-handling first, then the chain of ordinate
comparisons in source order. -/
def Envelope3d.lessThan (a b : Envelope3d) : Bool :=
  if a.isNull then
    if b.isNull then false else true
  else if b.isNull then false
  else if a.minx < b.minx then true
  else if a.minx > b.minx then false
  else if a.miny < b.miny then true
  else if a.miny > b.miny then false
  else if a.minz < b.minz then true
  else if a.minz > b.minz then false
  else if a.maxx < b.maxx then true
  else if a.maxx > b.maxx then false
  else if a.maxy < b.maxy then true
  else if a.maxy > b.maxy then false
  else if a.maxz < b.maxz then true
  else if a.maxz > b.maxz then false
  else false

/-- The union ("expand to include") of a list of envelopes, starting from
the null envelope; this is how `addChildNode3d` accumulates a node's
bounds over its children. -/
def envUnion (l : List Envelope3d) : Envelope3d :=
  l.foldl Envelope3d.expandToInclude Envelope3d.setToNullValue

/-- `geos::index::strtree::SimpleSTRnode3d`: a node owns a bounding
volume, a level, an ordered list of child references and an optional
item reference. Child pointers are embedded as node values and the
opaque `void*` item as `Option Nat` (internal nodes carry `none`). -/
inductive SimpleSTRnode3d : Type where
  | mk (bounds : Envelope3d) (level : Int) (childNodes : List SimpleSTRnode3d)
       (item : Option Nat) : SimpleSTRnode3d

def SimpleSTRnode3d.bounds : SimpleSTRnode3d → Envelope3d
  | .mk b _ _ _ => b

def SimpleSTRnode3d.level : SimpleSTRnode3d → Int
  | .mk _ l _ _ => l

def SimpleSTRnode3d.childNodes : SimpleSTRnode3d → List SimpleSTRnode3d
  | .mk _ _ cs _ => cs

/-- `getItem()`: the stored opaque item reference (`none` models the
null pointer of an internal node). -/
def SimpleSTRnode3d.getItem : SimpleSTRnode3d → Option Nat
  | .mk _ _ _ it => it

/-- `getEnvelope()`: accessor for the node's bounds. -/
def SimpleSTRnode3d.getEnvelope (n : SimpleSTRnode3d) : Envelope3d :=
  n.bounds

/-- Modelled from the spec: `SimpleSTRnode3d.h` is not under `src/`;
`isLeaf()` = "has an item, not children" (§4.2). -/
def SimpleSTRnode3d.isLeaf (n : SimpleSTRnode3d) : Bool :=
  n.getItem.isSome

/-- `SimpleSTRnode3d::addChildNode3d` from `SimpleSTRnode3d.cpp`:
adopt the child's envelope when the bounds is null, otherwise expand to
include it; then append the child reference. -/
def SimpleSTRnode3d.addChildNode3d (n childNode : SimpleSTRnode3d) : SimpleSTRnode3d :=
  SimpleSTRnode3d.mk
    (if n.bounds.isNull then childNode.getEnvelope
     else n.bounds.expandToInclude childNode.getEnvelope)
    n.level (n.childNodes ++ [childNode]) n.getItem

/-- `SimpleSTRnode3d::getNumNodes` from `SimpleSTRnode3d.cpp`:
1 for a leaf, otherwise 1 plus the recursive sum over children. -/
def SimpleSTRnode3d.getNumNodes : SimpleSTRnode3d → Nat
  | .mk _ _ cs it =>
    if (Option.isSome it : Bool) then 1
    else 1 + (cs.attach.map (fun c => SimpleSTRnode3d.getNumNodes c.1)).sum
termination_by n => sizeOf n
decreasing_by
  simp_wf
  have h := List.sizeOf_lt_of_mem c.2
  omega

/-- `SimpleSTRnode3d::getNumLeafNodes` from `SimpleSTRnode3d.cpp`:
`isLeaf() ? 1 : 0` plus the recursive sum over children (the loop runs
unconditionally in the source). -/
def SimpleSTRnode3d.getNumLeafNodes : SimpleSTRnode3d → Nat
  | .mk _ _ cs it =>
    (if (Option.isSome it : Bool) then 1 else 0) +
      (cs.attach.map (fun c => SimpleSTRnode3d.getNumLeafNodes c.1)).sum
termination_by n => sizeOf n
decreasing_by
  simp_wf
  have h := List.sizeOf_lt_of_mem c.2
  omega

/-- The loop body of `SimpleSTRnode3d::removeItem`: scan the child list,
erase the first child whose stored item compares equal (pointer
identity) to the reference, report whether one was found. -/
def removeItemLoop (itemToRemove : Nat) :
    List SimpleSTRnode3d → Bool × List SimpleSTRnode3d
  | [] => (false, [])
  | c :: cs =>
    if c.getItem = some itemToRemove then (true, cs)
    else
      let r := removeItemLoop itemToRemove cs
      (r.1, c :: r.2)

/-- `SimpleSTRnode3d::removeItem` from `SimpleSTRnode3d.cpp`: only the
child list is touched; the bool result is paired with the updated node. -/
def SimpleSTRnode3d.removeItem (n : SimpleSTRnode3d) (itemToRemove : Nat) :
    Bool × SimpleSTRnode3d :=
  let r := removeItemLoop itemToRemove n.childNodes
  (r.1, SimpleSTRnode3d.mk n.bounds n.level r.2 n.getItem)

/-- Structural equality test on nodes, modelling the pointer-identity
comparison `(*it) == child` of `removeChild` (none of the verified
properties depends on the semantics of this test). -/
def nodeBEq : SimpleSTRnode3d → SimpleSTRnode3d → Bool
  | .mk b1 l1 cs1 it1, .mk b2 l2 cs2 it2 =>
    b1 = b2 && l1 = l2 && it1 = it2 && cs1.length = cs2.length &&
      ((cs1.zip cs2).attach.all (fun p => nodeBEq p.1.1 p.1.2))
termination_by n => sizeOf n
decreasing_by
  simp_wf
  obtain ⟨⟨x, y⟩, hm⟩ := p
  have h1 := List.sizeOf_lt_of_mem (List.of_mem_zip hm).1
  simp only at h1 ⊢
  omega

/-- The loop body of `SimpleSTRnode3d::removeChild`: erase the first
child that is the given node. -/
def removeChildLoop (child : SimpleSTRnode3d) :
    List SimpleSTRnode3d → Bool × List SimpleSTRnode3d
  | [] => (false, [])
  | c :: cs =>
    if nodeBEq c child then (true, cs)
    else
      let r := removeChildLoop child cs
      (r.1, c :: r.2)

/-- `SimpleSTRnode3d::removeChild` from `SimpleSTRnode3d.cpp`. -/
def SimpleSTRnode3d.removeChild (n : SimpleSTRnode3d) (child : SimpleSTRnode3d) :
    Bool × SimpleSTRnode3d :=
  let r := removeChildLoop child n.childNodes
  (r.1, SimpleSTRnode3d.mk n.bounds n.level r.2 n.getItem)

/-- The list of all nodes of the subtree rooted at a node (the node
itself and, recursively, every descendant); used to state what the
subtree node/leaf counters return. -/
def SimpleSTRnode3d.subtreeNodes : SimpleSTRnode3d → List SimpleSTRnode3d
  | .mk b l cs it =>
    SimpleSTRnode3d.mk b l cs it ::
      (cs.attach.map (fun c => SimpleSTRnode3d.subtreeNodes c.1)).flatten
termination_by n => sizeOf n
decreasing_by
  simp_wf
  have h := List.sizeOf_lt_of_mem c.2
  omega

/-- The spec's structural invariant on nodes (§3): a leaf (item set) has
no children; checked recursively over the subtree. -/
def SimpleSTRnode3d.wfNode : SimpleSTRnode3d → Bool
  | .mk _ _ cs it =>
    (!(Option.isSome it) || cs.isEmpty) &&
      cs.attach.all (fun c => SimpleSTRnode3d.wfNode c.1)
termination_by n => sizeOf n
decreasing_by
  simp_wf
  have h := List.sizeOf_lt_of_mem c.2
  omega

/-- `geos::index::strtree::SimpleSTRtree` (from `SimpleSTRtree.h`): the
members the claims are about. The node arenas (`nodesQue`, `nodesQue3d`)
only own storage and the parallel 2D structures duplicate the 3D ones,
so the embedding keeps the capacity, the built flag and the root. -/
structure SimpleSTRtree where
  nodeCapacity : Nat
  built : Bool
  root : Option SimpleSTRnode3d

/-- The `SimpleSTRtree(std::size_t capacity = 10)` constructor: stores
the supplied capacity unchanged (no validation), clears `built` and the
root. -/
def SimpleSTRtree.create (capacity : Nat) : SimpleSTRtree :=
  ⟨capacity, false, none⟩

/-- `SimpleSTRtree::getNodeCapacity` from `SimpleSTRtree.h`. -/
def SimpleSTRtree.getNodeCapacity (t : SimpleSTRtree) : Nat :=
  t.nodeCapacity

/-- `SimpleSTRtree::getNumLeafNodes` from `SimpleSTRtree.h`: 0 without a
root, otherwise the root's recursive leaf count. -/
def SimpleSTRtree.getNumLeafNodes (t : SimpleSTRtree) : Nat :=
  match t.root with
  | none => 0
  | some r => r.getNumLeafNodes

/-- The spec's comparison order, written from its words: lexicographic
over the tuple `(minX, minY, minZ, maxX, maxY, maxZ)`. -/
def Envelope3d.specLexLt (a b : Envelope3d) : Prop :=
  a.minx < b.minx ∨ (a.minx = b.minx ∧
    (a.miny < b.miny ∨ (a.miny = b.miny ∧
      (a.minz < b.minz ∨ (a.minz = b.minz ∧
        (a.maxx < b.maxx ∨ (a.maxx = b.maxx ∧
          (a.maxy < b.maxy ∨ (a.maxy = b.maxy ∧
            a.maxz < b.maxz)))))))))

instance (a b : Envelope3d) : Decidable (a.specLexLt b) :=
  inferInstanceAs (Decidable (_ ∨ _))

/-! ### Textual envelope format

`operator<<` and the `Envelope3d(const std::string&)` constructor of
`Envelope3d.cpp`. Strings are embedded as `List Char`; the `double`
values are exact integers, printed in plain decimal (which is what the
default `std::ostream` formatting emits for integral values in its
precision range) and parsed by the integer fragment of `strtod`
(longest numeric prefix; `0` when no conversion is possible, with no
error reported — `strtod` is called with a null end pointer). -/

/-- The ten decimal digit characters. -/
def digitChars : List Char :=
  ['0', '1', '2', '3', '4', '5', '6', '7', '8', '9']

/-- C `isdigit`, as used by `strtod` to delimit the numeric run. -/
def isDigitCh (c : Char) : Bool :=
  digitChars.contains c

/-- Numeric value of a decimal digit character. -/
def charVal (c : Char) : Nat :=
  c.toNat - 48

/-- Value of a string of decimal digits (most significant first). -/
def charsToNat (l : List Char) : Nat :=
  l.foldl (fun a c => 10 * a + charVal c) 0

/-- Decimal digits of `n` (fuel-indexed; `fuel ≥ n` suffices). -/
def natToCharsAux : Nat → Nat → List Char
  | 0, _ => []
  | fuel + 1, n =>
    if n = 0 then []
    else natToCharsAux fuel (n / 10) ++ [Nat.digitChar (n % 10)]

/-- Decimal rendering of a natural number, as `std::ostream` prints it. -/
def natToChars (n : Nat) : List Char :=
  if n = 0 then ['0'] else natToCharsAux n n

/-- Decimal rendering of an integer; this is what `std::ostream`
prints for an integral `double` of magnitude below 10^6 (the fixed
branch of the default `%g` formatting). -/
def intToChars (v : Int) : List Char :=
  if v < 0 then '-' :: natToChars v.natAbs else natToChars v.natAbs

/-- Round `n / 10^k` to the nearest integer, ties to even — the
correct rounding `printf`-family conversions apply under the default
FE_TONEAREST mode when trimming an exact value to 6 significant
digits. -/
def roundHalfEven (n k : Nat) : Nat :=
  let q := n / 10 ^ k
  let r := n % 10 ^ k
  let half := 10 ^ k / 2
  if half < r then q + 1
  else if r < half then q
  else if q % 2 = 0 then q else q + 1

/-- Decimal rendering of a natural padded with leading zeros to the
given width (fractional mantissa digits keep their leading zeros). -/
def natToCharsPad (width n : Nat) : List Char :=
  List.replicate (width - (natToChars n).length) '0' ++ natToChars n

/-- Remove trailing `'0'` characters, as `%g` strips trailing zeros of
the fractional part. -/
def stripZeros (l : List Char) : List Char :=
  (l.reverse.dropWhile (fun c => c = '0')).reverse

/-- The exponent field of scientific notation, printed with at least
two digits (`e+06`, `e+308`). -/
def sciExpChars (x : Nat) : List Char :=
  if x < 10 then '0' :: natToChars x else natToChars x

/-- Scientific rendering of an integral magnitude `n ≥ 10^6`, as the
default `%g` formatting emits it: round to 6 significant digits
(renormalizing when the carry overflows to a 7th digit), strip
trailing fractional zeros, drop the decimal point when no fraction
remains, and append `e+` with the two-digit-minimum exponent. -/
def sciChars (n : Nat) : List Char :=
  let k := (natToChars n).length
  let m := roundHalfEven n (k - 6)
  let m2 := if 1000000 ≤ m then m / 10 else m
  let x := if 1000000 ≤ m then k else k - 1
  let frac := stripZeros (natToCharsPad 5 (m2 % 100000))
  natToChars (m2 / 100000) ++
    (if frac = [] then [] else '.' :: frac) ++
    'e' :: '+' :: sciExpChars x

/-- The default `std::ostream` rendering of an integral `double`
(`%g`, precision 6): plain decimal below 10^6 in magnitude, rounded
scientific notation from 10^6 up. -/
def doubleToChars (v : Int) : List Char :=
  if v.natAbs < 1000000 then intToChars v
  else if v < 0 then '-' :: sciChars v.natAbs else sciChars v.natAbs

/-- The delimiter set `":,"` used by the envelope constructor. -/
def envDelims : List Char :=
  [':', ',']

/-- `Envelope3d::split` from `Envelope3d.cpp`: tokenize on a delimiter
set. The source walks the string with `find_first_of` /
`find_first_not_of`: a token ends at each delimiter run, delimiter runs
are skipped, a leading delimiter yields one empty first token, and
trailing delimiters yield no token. This recursion computes that same
tokenization one character at a time. -/
def splitChars (delims : List Char) : List Char → List (List Char)
  | [] => [[]]
  | c :: s =>
    if delims.contains c then
      match s with
      | [] => [[]]
      | d :: _ =>
        if delims.contains d then splitChars delims s
        else [] :: splitChars delims s
    else
      match splitChars delims s with
      | [] => [[c]]
      | t :: ts => (c :: t) :: ts

/-- After the integer digits, `strtod` consumes a fraction only when a
decimal point follows: the fractional digit run and the remainder. -/
def fracSplit (r : List Char) : List Char × List Char :=
  match r with
  | [] => ([], [])
  | c :: rs =>
    if c = '.' then (rs.takeWhile isDigitCh, rs.dropWhile isDigitCh)
    else ([], c :: rs)

/-- The optionally signed digit run of an exponent part; a malformed
exponent (no digits) is not consumed by `strtod` and contributes 0. -/
def expoSigned (r : List Char) : Int :=
  match r with
  | [] => 0
  | c :: rs =>
    if c = '-' then
      (if rs.takeWhile isDigitCh = [] then 0
       else -(charsToNat (rs.takeWhile isDigitCh) : Int))
    else if c = '+' then
      (if rs.takeWhile isDigitCh = [] then 0
       else (charsToNat (rs.takeWhile isDigitCh) : Int))
    else
      (if (c :: rs).takeWhile isDigitCh = [] then 0
       else (charsToNat ((c :: rs).takeWhile isDigitCh) : Int))

/-- The exponent value contributed by the remainder after the
mantissa: `e`/`E` followed by an optionally signed digit run, 0 when
absent or malformed. -/
def expoVal (r : List Char) : Int :=
  match r with
  | [] => 0
  | c :: rs =>
    if c = 'e' ∨ c = 'E' then expoSigned rs else 0

/-- Scale a mantissa by a power of ten. A negative net power makes the
C value fractional — outside the exact-integer scalar domain — and is
truncated here; no theorem in this file evaluates the parser there. -/
def tenPow (m : Nat) (e : Int) : Int :=
  if 0 ≤ e then (m : Int) * 10 ^ e.toNat
  else (m : Int) / 10 ^ (-e).toNat

/-- The unsigned part of the `strtod` decimal grammar: integer digits,
optional fraction, optional exponent; if no mantissa digit at all can
be converted the result is `0` and no failure is reported. -/
def strtodMag (s : List Char) : Int :=
  let ip := s.takeWhile isDigitCh
  let r1 := s.dropWhile isDigitCh
  let fr := fracSplit r1
  if ip = [] ∧ fr.1 = [] then 0
  else tenPow (charsToNat (ip ++ fr.1)) (expoVal fr.2 - fr.1.length)

/-- The decimal grammar of C `strtod` as called by the envelope
constructor (null end pointer, so conversion problems are never
reported): an optional sign, then digits with optional fraction and
exponent. Tokens of this format carry no leading whitespace; the
hexadecimal, infinity and NaN forms of `strtod` involve values outside
the exact-integer scalar model and do not occur in this format. -/
def strtodInt (s : List Char) : Int :=
  match s with
  | [] => 0
  | c :: rest =>
    if c = '-' then -(strtodMag rest)
    else if c = '+' then strtodMag rest
    else strtodMag (c :: rest)

/-- `operator<<(std::ostream&, const Envelope3d&)` from
`Envelope3d.cpp`: `Env[minx:maxx,miny:maxy,minz:maxz]`, each extent
streamed with the default `std::ostream` `double` formatting. -/
def envToChars (o : Envelope3d) : List Char :=
  'E' :: 'n' :: 'v' :: '[' ::
    (doubleToChars o.minx ++ ':' :: doubleToChars o.maxx ++ ',' ::
     doubleToChars o.miny ++ ':' :: doubleToChars o.maxy ++ ',' ::
     doubleToChars o.minz ++ ':' :: doubleToChars o.maxz ++ [']'])

/-- The token list the `Envelope3d(const std::string&)` constructor
builds: everything after the first `[` (when `[` is absent,
`npos + 1` wraps to position `0` in the source), truncated to
`size() - 2` characters, split on `":,"`. The trailing `]` is left in
the last token and later ignored by `strtod`. -/
def envTokens (s : List Char) : List (List Char) :=
  let i : Nat :=
    match s.findIdx? (fun c => c = '[') with
    | some k => k + 1
    | none => 0
  splitChars envDelims ((s.drop i).take (s.length - 2))

/-- `Envelope3d::Envelope3d(const std::string&)` from `Envelope3d.cpp`:
parse the six tokens with `strtod` and `init` the envelope. Accessing
`values[0] .. values[5]` of a shorter vector is out-of-range
(undefined behaviour), embedded as `none`. -/
def envelope3dOfChars (s : List Char) : Option Envelope3d :=
  match envTokens s with
  | v0 :: v1 :: v2 :: v3 :: v4 :: v5 :: _ =>
    some (Envelope3d.init (strtodInt v0) (strtodInt v1) (strtodInt v2)
          (strtodInt v3) (strtodInt v4) (strtodInt v5))
  | _ => none

/-! ### Concrete values used by witnesses and counterexamples -/

/-- A small proper envelope near the origin. -/
def envA : Envelope3d :=
  ⟨0, 1, 0, 1, 0, 1⟩

/-- A small proper envelope away from `envA`. -/
def envB : Envelope3d :=
  ⟨10, 11, 10, 11, 10, 11⟩

/-- A leaf holding item `1` with bounds `envA`. -/
def leafA : SimpleSTRnode3d :=
  SimpleSTRnode3d.mk envA 0 [] (some 1)

/-- A leaf holding item `2` with bounds `envB`. -/
def leafB : SimpleSTRnode3d :=
  SimpleSTRnode3d.mk envB 0 [] (some 2)

/-- A freshly created internal node at level 1: null bounds, no
children (`createNode3d(level)` default-constructs the envelope). -/
def freshNode : SimpleSTRnode3d :=
  SimpleSTRnode3d.mk Envelope3d.setToNullValue 1 [] none

/-- The internal node obtained by adding `leafA` then `leafB` to a
fresh node. -/
def nodeAB : SimpleSTRnode3d :=
  (freshNode.addChildNode3d leafA).addChildNode3d leafB

/-- A well-formed two-leaf internal node written as a literal (equal to
`nodeAB`), convenient for evaluating the recursive counters. -/
def nodeW : SimpleSTRnode3d :=
  SimpleSTRnode3d.mk ⟨0, 11, 0, 11, 0, 11⟩ 1 [leafA, leafB] none

/-! ### Theorems -/

/-- C10: `expandBy` subtracts each delta from the corresponding min
extent and adds it to the corresponding max extent; if afterwards min
exceeds max on any axis the envelope becomes the canonical null state
(`setToNull`), never an envelope with inverted extents. -/
theorem claim_C10 (e : Envelope3d) (dx dy dz : Int) :
    (e.expandBy dx dy dz =
      if e.minx - dx > e.maxx + dx ∨ e.miny - dy > e.maxy + dy ∨
         e.minz - dz > e.maxz + dz
      then Envelope3d.setToNullValue
      else ⟨e.minx - dx, e.maxx + dx, e.miny - dy, e.maxy + dy,
            e.minz - dz, e.maxz + dz⟩) ∧
    ((e.expandBy dx dy dz).isNull ↔
      e.minx - dx > e.maxx + dx ∨ e.miny - dy > e.maxy + dy ∨
        e.minz - dz > e.maxz + dz) := by
  constructor
  · rfl
  · unfold Envelope3d.expandBy
    dsimp only
    split_ifs with h
    · simp only [h, iff_true]
      decide
    · simp only [h, iff_false, Envelope3d.isNull]
      push_neg at h ⊢
      exact h.1

/-- C6: the comparison `operator<` on 3D envelopes is exactly the
lexicographic order over `(minX, minY, minZ, maxX, maxY, maxZ)`, with a
null envelope strictly below every non-null one, null not below null,
and no envelope below itself. -/
theorem claim_C6 (a b : Envelope3d) :
    (Envelope3d.lessThan a b = true ↔
      ((a.isNull ∧ ¬ b.isNull) ∨
       (¬ a.isNull ∧ ¬ b.isNull ∧ a.specLexLt b))) ∧
    Envelope3d.lessThan a a = false := by
  constructor
  · by_cases hA : a.isNull
    · by_cases hB : b.isNull
      · simp [Envelope3d.lessThan, hA, hB]
      · simp [Envelope3d.lessThan, hA, hB]
    · by_cases hB : b.isNull
      · simp [Envelope3d.lessThan, hA, hB]
      · rcases lt_trichotomy a.minx b.minx with h1 | h1 | h1
        · simp [Envelope3d.lessThan, Envelope3d.specLexLt, hA, hB, h1]
        · rcases lt_trichotomy a.miny b.miny with h2 | h2 | h2
          · simp [Envelope3d.lessThan, Envelope3d.specLexLt, hA, hB, h1, h2]
          · rcases lt_trichotomy a.minz b.minz with h3 | h3 | h3
            · simp [Envelope3d.lessThan, Envelope3d.specLexLt, hA, hB, h1, h2, h3]
            · rcases lt_trichotomy a.maxx b.maxx with h4 | h4 | h4
              · simp [Envelope3d.lessThan, Envelope3d.specLexLt, hA, hB, h1, h2, h3, h4]
              · rcases lt_trichotomy a.maxy b.maxy with h5 | h5 | h5
                · simp [Envelope3d.lessThan, Envelope3d.specLexLt, hA, hB,
                    h1, h2, h3, h4, h5]
                · rcases lt_trichotomy a.maxz b.maxz with h6 | h6 | h6
                  · simp [Envelope3d.lessThan, Envelope3d.specLexLt, hA, hB,
                      h1, h2, h3, h4, h5, h6]
                  · simp [Envelope3d.lessThan, Envelope3d.specLexLt, hA, hB,
                      h1, h2, h3, h4, h5, h6]
                  · simp [Envelope3d.lessThan, Envelope3d.specLexLt, hA, hB,
                      h1, h2, h3, h4, h5, h6]
                · simp [Envelope3d.lessThan, Envelope3d.specLexLt, hA, hB,
                    h1, h2, h3, h4, h5]
                  omega
              · simp [Envelope3d.lessThan, Envelope3d.specLexLt, hA, hB, h1, h2, h3, h4]
                omega
            · simp [Envelope3d.lessThan, Envelope3d.specLexLt, hA, hB, h1, h2, h3]
              omega
          · simp [Envelope3d.lessThan, Envelope3d.specLexLt, hA, hB, h1, h2]
            omega
        · simp [Envelope3d.lessThan, Envelope3d.specLexLt, hA, hB, h1]
          omega
  · by_cases hA : a.isNull
    · simp [Envelope3d.lessThan, hA]
    · simp [Envelope3d.lessThan, hA]

/-- C4: under the data-model invariant (each envelope null or with
`min ≤ max` per axis), `intersection` yields nothing exactly when
either input is null or the inputs are disjoint, and otherwise the
overlap region: each min extent is the max of the input mins and each
max extent the min of the input maxes. -/
theorem claim_C4 (a b : Envelope3d)
    (ha : a.isNull ∨ a.proper) (hb : b.isNull ∨ b.proper) :
    a.intersection b =
      if a.isNull ∨ b.isNull ∨ ¬ a.intersects b then none
      else some ⟨max a.minx b.minx, min a.maxx b.maxx,
                 max a.miny b.miny, min a.maxy b.maxy,
                 max a.minz b.minz, min a.maxz b.maxz⟩ := by
  unfold Envelope3d.intersection
  split_ifs with h
  · rfl
  · simp only [not_or, not_not] at h
    obtain ⟨h1, h2, h3⟩ := h
    have hpa : a.proper := ha.resolve_left h1
    have hpb : b.proper := hb.resolve_left h2
    unfold Envelope3d.proper at hpa hpb
    unfold Envelope3d.intersects at h3
    unfold Envelope3d.init
    simp only [Option.some.injEq, Envelope3d.mk.injEq]
    refine ⟨?_, ?_, ?_, ?_, ?_, ?_⟩ <;> omega

/-- Witness for C4 at a concrete overlapping pair. -/
theorem claim_C4_witness :
    Envelope3d.intersection ⟨0, 2, 0, 2, 0, 2⟩ ⟨1, 3, 1, 3, 1, 3⟩ =
      some ⟨1, 2, 1, 2, 1, 2⟩ := by
  have h := claim_C4 ⟨0, 2, 0, 2, 0, 2⟩ ⟨1, 3, 1, 3, 1, 3⟩
    (Or.inr (by decide)) (Or.inr (by decide))
  rw [h]
  decide

/-- The removeItem scan is exactly: found-flag = "some child's item
matches", new list = first matching child erased. -/
theorem removeItemLoop_eq (ref : Nat) (l : List SimpleSTRnode3d) :
    removeItemLoop ref l =
      (l.any (fun c => decide (c.getItem = some ref)),
       l.eraseP (fun c => decide (c.getItem = some ref))) := by
  induction l with
  | nil => rfl
  | cons c cs ih =>
    by_cases h : c.getItem = some ref <;>
      simp [removeItemLoop, h, ih, List.eraseP_cons]

/-- The removeChild scan is exactly: found-flag = "some child matches",
new list = first matching child erased. -/
theorem removeChildLoop_eq (child : SimpleSTRnode3d) (l : List SimpleSTRnode3d) :
    removeChildLoop child l =
      (l.any (fun c => nodeBEq c child),
       l.eraseP (fun c => nodeBEq c child)) := by
  induction l with
  | nil => rfl
  | cons c cs ih =>
    by_cases h : nodeBEq c child = true <;>
      simp [removeChildLoop, h, ih, List.eraseP_cons]

/-- Erasing the first match removes at most one element. -/
theorem list_length_le_eraseP_add_one {α : Type} (p : α → Bool) (l : List α) :
    l.length ≤ (l.eraseP p).length + 1 := by
  by_cases h : ∃ a ∈ l, p a = true
  · obtain ⟨a, ha, hpa⟩ := h
    have := List.length_eraseP_add_one ha hpa
    omega
  · push_neg at h
    rw [List.eraseP_of_forall_not (by simpa using h)]
    omega

/-- C2: `removeItem` scans only the node's direct children, comparing
each child's stored item to the reference by identity; it erases exactly
the first matching child and returns true when one exists, and returns
false leaving the child list unchanged otherwise. -/
theorem claim_C2 (n : SimpleSTRnode3d) (ref : Nat) :
    ((n.removeItem ref).1 = true ↔ ∃ c ∈ n.childNodes, c.getItem = some ref) ∧
    ((n.removeItem ref).2.childNodes =
      n.childNodes.eraseP (fun c => decide (c.getItem = some ref))) ∧
    ((n.removeItem ref).1 = false → (n.removeItem ref).2 = n) := by
  obtain ⟨b, lv, cs, it⟩ := n
  unfold SimpleSTRnode3d.removeItem
  rw [removeItemLoop_eq]
  refine ⟨?_, ?_, ?_⟩
  · simp [SimpleSTRnode3d.childNodes, List.any_eq_true]
  · simp [SimpleSTRnode3d.childNodes]
  · intro hfalse
    simp only [List.any_eq_false, SimpleSTRnode3d.childNodes,
      SimpleSTRnode3d.bounds, SimpleSTRnode3d.level, SimpleSTRnode3d.getItem,
      decide_eq_true_eq] at hfalse ⊢
    rw [List.eraseP_of_forall_not (by simpa using hfalse)]

/-- C8: removal (`removeItem` and `removeChild`) never changes the
node's bounds, level or item, removes at most one entry from the child
list, and keeps the remaining children in their relative order
(the new child list is a sublist of the old one). -/
theorem claim_C8 (n : SimpleSTRnode3d) (ref : Nat) (child : SimpleSTRnode3d) :
    ((n.removeItem ref).2.bounds = n.bounds ∧
     (n.removeItem ref).2.level = n.level ∧
     (n.removeItem ref).2.getItem = n.getItem ∧
     (n.removeItem ref).2.childNodes.Sublist n.childNodes ∧
     n.childNodes.length ≤ (n.removeItem ref).2.childNodes.length + 1) ∧
    ((n.removeChild child).2.bounds = n.bounds ∧
     (n.removeChild child).2.level = n.level ∧
     (n.removeChild child).2.getItem = n.getItem ∧
     (n.removeChild child).2.childNodes.Sublist n.childNodes ∧
     n.childNodes.length ≤ (n.removeChild child).2.childNodes.length + 1) := by
  obtain ⟨b, lv, cs, it⟩ := n
  unfold SimpleSTRnode3d.removeItem SimpleSTRnode3d.removeChild
  rw [removeItemLoop_eq, removeChildLoop_eq]
  refine ⟨⟨rfl, rfl, rfl, ?_, ?_⟩, ⟨rfl, rfl, rfl, ?_, ?_⟩⟩ <;>
    simp only [SimpleSTRnode3d.childNodes] <;>
    first
      | exact List.eraseP_sublist _
      | exact list_length_le_eraseP_add_one _ _

/-- Counterexample to C7 as stated: the constructor accepts any
capacity, including 1, which `getNodeCapacity` then reports — the
"integer at least 2" bound is not established by the code. -/
theorem claim_C7_counterexample :
    (SimpleSTRtree.create 1).getNodeCapacity = 1 ∧
    ¬ 2 ≤ (SimpleSTRtree.create 1).getNodeCapacity := by
  exact ⟨rfl, by decide⟩

/-- C7 (amended): `getNodeCapacity` returns the capacity supplied to the
constructor unchanged, and the capacity member is untouched by any
update of the mutable tree state (built flag and root), so it is fixed
at construction; the `≥ 2` lower bound is a caller obligation the
constructor does not check. -/
theorem claim_C7_amended (capacity : Nat) (t : SimpleSTRtree) (b : Bool)
    (r : Option SimpleSTRnode3d) :
    (SimpleSTRtree.create capacity).getNodeCapacity = capacity ∧
    (SimpleSTRtree.mk t.nodeCapacity b r).getNodeCapacity = t.getNodeCapacity := by
  exact ⟨rfl, rfl⟩

/-- Unions over a child list grow one expand-to-include step at a time. -/
theorem envUnion_append (l : List Envelope3d) (e : Envelope3d) :
    envUnion (l ++ [e]) = (envUnion l).expandToInclude e := by
  simp [envUnion, List.foldl_append]

/-- Expanding a null accumulator by a non-null envelope adopts it. -/
theorem expandToInclude_of_self_null (u e : Envelope3d) (hu : u.isNull)
    (he : ¬ e.isNull) : u.expandToInclude e = e := by
  unfold Envelope3d.expandToInclude
  rw [if_neg he, if_pos hu]

/-- Covering is reflexive. -/
theorem covers_refl (e : Envelope3d) : e.covers e := by
  unfold Envelope3d.covers
  omega

/-- Expanding to include a non-null envelope covers it. -/
theorem covers_expandToInclude_right (u e : Envelope3d) (he : ¬ e.isNull) :
    (u.expandToInclude e).covers e := by
  unfold Envelope3d.expandToInclude
  rw [if_neg he]
  by_cases hu : u.isNull
  · rw [if_pos hu]
    exact covers_refl e
  · rw [if_neg hu]
    unfold Envelope3d.covers
    dsimp only
    omega

/-- Expanding can only grow: an envelope covered before an
expand-to-include step is still covered afterwards. -/
theorem covers_expandToInclude_preserve (u b e : Envelope3d)
    (he : ¬ e.isNull) (h : u.covers e) : (u.expandToInclude b).covers e := by
  unfold Envelope3d.expandToInclude
  by_cases hb : b.isNull
  · rw [if_pos hb]
    exact h
  · rw [if_neg hb]
    by_cases hu : u.isNull
    · exfalso
      unfold Envelope3d.covers at h
      unfold Envelope3d.isNull at he hu
      omega
    · rw [if_neg hu]
      unfold Envelope3d.covers at h ⊢
      dsimp only
      omega

/-- Folding expand-to-include over a list covers every non-null member
(and anything the accumulator already covered). -/
theorem foldl_expand_covers (l : List Envelope3d) :
    ∀ (acc e : Envelope3d), ¬ e.isNull → (acc.covers e ∨ e ∈ l) →
      (∀ x ∈ l, ¬ x.isNull) →
      (l.foldl Envelope3d.expandToInclude acc).covers e := by
  induction l with
  | nil =>
    intro acc e he hmem _
    rcases hmem with h | h
    · simpa using h
    · simp at h
  | cons c cs ih =>
    intro acc e he hmem hl
    rw [List.foldl_cons]
    apply ih _ e he _ (fun x hx => hl x (List.mem_cons_of_mem _ hx))
    rcases hmem with h | h
    · exact Or.inl (covers_expandToInclude_preserve _ _ _ he h)
    · rcases List.mem_cons.mp h with h1 | h2
      · subst h1
        exact Or.inl (covers_expandToInclude_right _ _ he)
      · exact Or.inr h2

/-- Any envelope covering the accumulator and every list member covers
the fold of expand-to-include over the list. -/
theorem foldl_expand_minimal (l : List Envelope3d) :
    ∀ (acc E : Envelope3d), E.covers acc → (∀ x ∈ l, E.covers x) →
      E.covers (l.foldl Envelope3d.expandToInclude acc) := by
  induction l with
  | nil =>
    intro acc E h _
    simpa using h
  | cons c cs ih =>
    intro acc E hacc hall
    rw [List.foldl_cons]
    apply ih _ E ?_ (fun x hx => hall x (List.mem_cons_of_mem _ hx))
    have hc := hall c (List.mem_cons_self _ _)
    unfold Envelope3d.expandToInclude
    by_cases hcn : c.isNull
    · rw [if_pos hcn]
      exact hacc
    · rw [if_neg hcn]
      by_cases han : acc.isNull
      · rw [if_pos han]
        exact hc
      · rw [if_neg han]
        unfold Envelope3d.covers at hacc hc ⊢
        dsimp only
        omega

/-- The union of a list of non-null envelopes covers each member. -/
theorem envUnion_covers (l : List Envelope3d) (hl : ∀ x ∈ l, ¬ x.isNull) :
    ∀ e ∈ l, (envUnion l).covers e :=
  fun e hm => foldl_expand_covers l _ e (hl e hm) (Or.inr hm) hl

/-- The union of a nonempty list of non-null envelopes is minimal among
envelopes covering every member. -/
theorem envUnion_minimal (l : List Envelope3d) (E : Envelope3d)
    (hne : l ≠ []) (hl : ∀ x ∈ l, ¬ x.isNull) (hc : ∀ x ∈ l, E.covers x) :
    E.covers (envUnion l) := by
  match l, hne with
  | c :: cs, _ =>
    unfold envUnion
    rw [List.foldl_cons,
      expandToInclude_of_self_null _ _ (by decide) (hl c (List.mem_cons_self _ _))]
    exact foldl_expand_minimal cs c E (hc c (List.mem_cons_self _ _))
      (fun x hx => hc x (List.mem_cons_of_mem _ hx))

/-- Computation rule: the bounds after `addChildNode3d` is the adopt-or-
expand of the source. -/
theorem addChildNode3d_bounds (n c : SimpleSTRnode3d) :
    (n.addChildNode3d c).bounds =
      if n.bounds.isNull then c.bounds else n.bounds.expandToInclude c.bounds := by
  obtain ⟨nb, nl, ncs, nit⟩ := n
  obtain ⟨cb, cl, ccs, cit⟩ := c
  rfl

/-- Computation rule: `addChildNode3d` appends the child. -/
theorem addChildNode3d_childNodes (n c : SimpleSTRnode3d) :
    (n.addChildNode3d c).childNodes = n.childNodes ++ [c] := by
  obtain ⟨nb, nl, ncs, nit⟩ := n
  rfl

/-- C1 (amended): `addChildNode3d` adopts the child's envelope when the
node's bounds is null and otherwise expands the bounds to include it,
appends the child after the existing children, and preserves the
minimal-cover invariant: when the bounds was the union of the children's
bounds before, afterwards it is again the union of the (non-null)
children's bounds, covers each child's bounds, and is covered by every
envelope that covers all children's bounds. (Removal does not preserve
this; see the counterexample.) -/
theorem claim_C1_amended (n c : SimpleSTRnode3d)
    (hinv : n.bounds = envUnion (n.childNodes.map SimpleSTRnode3d.bounds))
    (hch : ∀ x ∈ n.childNodes, ¬ x.bounds.isNull)
    (hc : ¬ c.bounds.isNull) :
    ((n.addChildNode3d c).childNodes = n.childNodes ++ [c]) ∧
    ((n.addChildNode3d c).bounds =
      envUnion ((n.childNodes ++ [c]).map SimpleSTRnode3d.bounds)) ∧
    (∀ x ∈ n.childNodes ++ [c], ((n.addChildNode3d c).bounds).covers x.bounds) ∧
    (∀ E : Envelope3d, (∀ x ∈ n.childNodes ++ [c], E.covers x.bounds) →
      E.covers (n.addChildNode3d c).bounds) := by
  have hmap : (n.childNodes ++ [c]).map SimpleSTRnode3d.bounds
      = n.childNodes.map SimpleSTRnode3d.bounds ++ [c.bounds] := by
    simp
  have hchAll : ∀ x ∈ n.childNodes ++ [c], ¬ x.bounds.isNull := by
    intro x hx
    rcases List.mem_append.mp hx with h | h
    · exact hch x h
    · rw [List.mem_singleton.mp h]
      exact hc
  have hchB : ∀ y ∈ (n.childNodes ++ [c]).map SimpleSTRnode3d.bounds, ¬ y.isNull := by
    intro y hy
    obtain ⟨z, hz, hzy⟩ := List.mem_map.mp hy
    rw [← hzy]
    exact hchAll z hz
  have hb : (n.addChildNode3d c).bounds
      = envUnion ((n.childNodes ++ [c]).map SimpleSTRnode3d.bounds) := by
    rw [hmap, envUnion_append, ← hinv, addChildNode3d_bounds]
    by_cases h : n.bounds.isNull
    · rw [if_pos h, expandToInclude_of_self_null _ _ h hc]
    · rw [if_neg h]
  refine ⟨addChildNode3d_childNodes n c, hb, ?_, ?_⟩
  · intro x hx
    rw [hb]
    exact envUnion_covers _ hchB _ (List.mem_map_of_mem _ hx)
  · intro E hE
    rw [hb]
    apply envUnion_minimal _ _ (by simp) hchB
    intro y hy
    obtain ⟨z, hz, hzy⟩ := List.mem_map.mp hy
    rw [← hzy]
    exact hE z hz

/-- Counterexample to C1 as stated: after `removeItem` succeeds on a
two-child node, the surviving child's bounds (`envA`) covers every
remaining child's bounds, yet does not cover the node's bounds — the
node's bounds is no longer the minimal cover of its children. -/
theorem claim_C1_counterexample :
    (nodeAB.removeItem 2).1 = true ∧
    (nodeAB.removeItem 2).2.childNodes = [leafA] ∧
    envA.covers leafA.bounds ∧
    ¬ envA.covers (nodeAB.removeItem 2).2.bounds := by
  refine ⟨rfl, rfl, by decide, by decide⟩

/-- Witness for the amended C1 at a concrete one-child node. -/
theorem claim_C1_witness :
    ((freshNode.addChildNode3d leafA).addChildNode3d leafB).bounds =
      envUnion (((freshNode.addChildNode3d leafA).childNodes ++ [leafB]).map
        SimpleSTRnode3d.bounds) :=
  (claim_C1_amended (freshNode.addChildNode3d leafA) leafB
    (by decide) (by decide) (by decide)).2.1

/-- Computation rule for `getNumNodes` on a constructed node. -/
theorem getNumNodes_mk (b : Envelope3d) (lv : Int) (cs : List SimpleSTRnode3d)
    (it : Option Nat) :
    (SimpleSTRnode3d.mk b lv cs it).getNumNodes =
      if it.isSome then 1 else 1 + (cs.map SimpleSTRnode3d.getNumNodes).sum := by
  rw [SimpleSTRnode3d.getNumNodes]
  simp

/-- Computation rule for `getNumLeafNodes` on a constructed node. -/
theorem getNumLeafNodes_mk (b : Envelope3d) (lv : Int) (cs : List SimpleSTRnode3d)
    (it : Option Nat) :
    (SimpleSTRnode3d.mk b lv cs it).getNumLeafNodes =
      (if it.isSome then 1 else 0) + (cs.map SimpleSTRnode3d.getNumLeafNodes).sum := by
  rw [SimpleSTRnode3d.getNumLeafNodes]
  simp

/-- Computation rule for `subtreeNodes` on a constructed node. -/
theorem subtreeNodes_mk (b : Envelope3d) (lv : Int) (cs : List SimpleSTRnode3d)
    (it : Option Nat) :
    (SimpleSTRnode3d.mk b lv cs it).subtreeNodes =
      SimpleSTRnode3d.mk b lv cs it :: (cs.map SimpleSTRnode3d.subtreeNodes).flatten := by
  rw [SimpleSTRnode3d.subtreeNodes]
  simp

/-- Computation rule for `wfNode` on a constructed node. -/
theorem wfNode_mk (b : Envelope3d) (lv : Int) (cs : List SimpleSTRnode3d)
    (it : Option Nat) :
    (SimpleSTRnode3d.mk b lv cs it).wfNode =
      ((!it.isSome || cs.isEmpty) && cs.all SimpleSTRnode3d.wfNode) := by
  rw [SimpleSTRnode3d.wfNode]
  have h : (cs.attach.all fun c => SimpleSTRnode3d.wfNode c.1)
      = cs.all SimpleSTRnode3d.wfNode := by
    rw [Bool.eq_iff_iff, List.all_eq_true, List.all_eq_true]
    simp [Subtype.forall]
  rw [h]

/-- Structural induction over the node tree. -/
theorem SimpleSTRnode3d.inductionOn (P : SimpleSTRnode3d → Prop)
    (step : ∀ b lv cs it, (∀ c ∈ cs, P c) → P (SimpleSTRnode3d.mk b lv cs it)) :
    ∀ n, P n
  | .mk b lv cs it =>
    step b lv cs it (fun c hc => SimpleSTRnode3d.inductionOn P step c)
termination_by n => sizeOf n
decreasing_by
  simp_wf
  have h := List.sizeOf_lt_of_mem hc
  omega

/-- Counting matches distributes over flattening. -/
theorem countP_flatten (p : SimpleSTRnode3d → Bool) (ls : List (List SimpleSTRnode3d)) :
    ls.flatten.countP p = (ls.map (fun l => l.countP p)).sum := by
  induction ls with
  | nil => rfl
  | cons l ls ih => simp [List.countP_append, ih]

/-- `getNumLeafNodes` counts exactly the leaves of the subtree node
list (no well-formedness needed: the source adds `isLeaf() ? 1 : 0` for
the node itself and recurses over all children). -/
theorem getNumLeafNodes_eq_countP (n : SimpleSTRnode3d) :
    n.getNumLeafNodes = n.subtreeNodes.countP SimpleSTRnode3d.isLeaf := by
  refine SimpleSTRnode3d.inductionOn
    (fun m => m.getNumLeafNodes = m.subtreeNodes.countP SimpleSTRnode3d.isLeaf) ?_ n
  intro b lv cs it ih
  rw [getNumLeafNodes_mk, subtreeNodes_mk, List.countP_cons, countP_flatten]
  have hmap : cs.map SimpleSTRnode3d.getNumLeafNodes =
      (cs.map SimpleSTRnode3d.subtreeNodes).map (fun l => l.countP SimpleSTRnode3d.isLeaf) := by
    rw [List.map_map]
    exact List.map_congr_left (fun c hc => ih c hc)
  rw [hmap]
  have hleaf : SimpleSTRnode3d.isLeaf (SimpleSTRnode3d.mk b lv cs it) = it.isSome := rfl
  rw [hleaf]
  by_cases hit : it.isSome <;> simp [hit] <;> omega

/-- Under the spec invariant (leaves have no children), `getNumNodes`
is the size of the subtree node list. -/
theorem getNumNodes_eq_length (n : SimpleSTRnode3d) :
    n.wfNode = true → n.getNumNodes = n.subtreeNodes.length := by
  refine SimpleSTRnode3d.inductionOn
    (fun m => m.wfNode = true → m.getNumNodes = m.subtreeNodes.length) ?_ n
  intro b lv cs it ih hwf
  rw [wfNode_mk] at hwf
  simp only [Bool.and_eq_true, Bool.or_eq_true, Bool.not_eq_true', List.all_eq_true] at hwf
  obtain ⟨h1, h2⟩ := hwf
  rw [getNumNodes_mk, subtreeNodes_mk]
  by_cases hit : it.isSome
  · have hcs : cs = [] := by
      rcases h1 with h | h
      · rw [hit] at h
        cases h
      · exact List.isEmpty_iff.mp h
    subst hcs
    simp [hit]
  · rw [Bool.not_eq_true] at hit
    simp only [hit, Bool.false_eq_true, if_false, List.length_cons,
      List.length_flatten, List.map_map]
    have hmap : cs.map SimpleSTRnode3d.getNumNodes =
        cs.map (List.length ∘ SimpleSTRnode3d.subtreeNodes) := by
      refine List.map_congr_left (fun c hc => ih c hc ?_)
      exact h2 c hc
    rw [hmap]
    omega

/-- C9: for every well-formed node, `getNumNodes` returns the total
number of nodes of the subtree rooted there (1 for a leaf) and
`getNumLeafNodes` the number of leaf descendants (1 for a leaf); the
tree-level `getNumLeafNodes` returns 0 whenever the tree has no root. -/
theorem claim_C9 (n : SimpleSTRnode3d) (capacity : Nat) (b : Bool)
    (h : n.wfNode = true) :
    n.getNumNodes = n.subtreeNodes.length ∧
    n.getNumLeafNodes = n.subtreeNodes.countP SimpleSTRnode3d.isLeaf ∧
    (SimpleSTRtree.mk capacity b none).getNumLeafNodes = 0 :=
  ⟨getNumNodes_eq_length n h, getNumLeafNodes_eq_countP n, rfl⟩

/-- Witness for C9 at a concrete two-leaf tree. -/
theorem claim_C9_witness :
    nodeW.wfNode = true ∧
    (nodeW.getNumNodes = nodeW.subtreeNodes.length ∧
     nodeW.getNumLeafNodes = nodeW.subtreeNodes.countP SimpleSTRnode3d.isLeaf ∧
     (SimpleSTRtree.mk 10 false none).getNumLeafNodes = 0) := by
  have hwf : nodeW.wfNode = true := by
    simp [nodeW, leafA, leafB, wfNode_mk]
  exact ⟨hwf, claim_C9 nodeW 10 false hwf⟩

/-- Digit characters have their numeric value. -/
theorem charVal_digitChar (d : Nat) (h : d < 10) :
    charVal (Nat.digitChar d) = d := by
  interval_cases d <;> decide

/-- Digit characters pass the digit test. -/
theorem isDigitCh_digitChar (d : Nat) (h : d < 10) :
    isDigitCh (Nat.digitChar d) = true := by
  interval_cases d <;> decide

/-- The digit printer yields nothing on zero. -/
theorem natToCharsAux_zero (fuel : Nat) : natToCharsAux fuel 0 = [] := by
  cases fuel <;> rfl

/-- With enough fuel, the digit printer emits a nonempty digit string
whose value is the printed number. -/
theorem natToCharsAux_spec (fuel : Nat) : ∀ n, 0 < n → n ≤ fuel →
    charsToNat (natToCharsAux fuel n) = n ∧
    (∀ c ∈ natToCharsAux fuel n, isDigitCh c = true) ∧
    natToCharsAux fuel n ≠ [] := by
  induction fuel with
  | zero =>
    intro n h1 h2
    omega
  | succ fuel ih =>
    intro n h1 h2
    rw [natToCharsAux, if_neg (by omega)]
    by_cases h10 : n / 10 = 0
    · rw [h10, natToCharsAux_zero, List.nil_append]
      refine ⟨?_, ?_, by simp⟩
      · show 10 * 0 + charVal (Nat.digitChar (n % 10)) = n
        rw [charVal_digitChar _ (by omega)]
        omega
      · intro c hc
        rw [List.mem_singleton.mp hc]
        exact isDigitCh_digitChar _ (by omega)
    · obtain ⟨hv, hd, hne⟩ := ih (n / 10) (Nat.pos_of_ne_zero h10) (by omega)
      refine ⟨?_, ?_, by simp⟩
      · unfold charsToNat at hv ⊢
        rw [List.foldl_append]
        show 10 * _ + charVal (Nat.digitChar (n % 10)) = n
        rw [hv, charVal_digitChar _ (by omega)]
        omega
      · intro c hc
        rcases List.mem_append.mp hc with h | h
        · exact hd c h
        · rw [List.mem_singleton.mp h]
          exact isDigitCh_digitChar _ (by omega)

/-- Parsing inverts printing for naturals. -/
theorem charsToNat_natToChars (n : Nat) : charsToNat (natToChars n) = n := by
  unfold natToChars
  by_cases h : n = 0
  · rw [if_pos h, h]
    decide
  · rw [if_neg h]
    exact (natToCharsAux_spec n n (by omega) le_rfl).1

/-- The printed natural consists of digit characters only. -/
theorem natToChars_digits (n : Nat) : ∀ c ∈ natToChars n, isDigitCh c = true := by
  unfold natToChars
  by_cases h : n = 0
  · rw [if_pos h]
    intro c hc
    rw [List.mem_singleton.mp hc]
    decide
  · rw [if_neg h]
    exact (natToCharsAux_spec n n (by omega) le_rfl).2.1

/-- The printed natural is nonempty. -/
theorem natToChars_ne_nil (n : Nat) : natToChars n ≠ [] := by
  unfold natToChars
  by_cases h : n = 0
  · rw [if_pos h]
    simp
  · rw [if_neg h]
    exact (natToCharsAux_spec n n (by omega) le_rfl).2.2

/-- Taking while a predicate holds stops exactly at the first failing
character. -/
theorem takeWhile_append_of_all (p : Char → Bool) (l r : List Char)
    (hl : ∀ c ∈ l, p c = true) (hr : ∀ c, r.head? = some c → p c = false) :
    (l ++ r).takeWhile p = l := by
  induction l with
  | nil =>
    cases r with
    | nil => rfl
    | cons c rs => simp [List.takeWhile_cons, hr c rfl]
  | cons a l ih =>
    simp [List.takeWhile_cons, hl a (List.mem_cons_self _ _),
      ih (fun c hc => hl c (List.mem_cons_of_mem _ hc))]

/-- Every printed integer is a sign-free digit run or a minus sign
followed by one. -/
theorem intToChars_shape (v : Int) :
    ∀ c ∈ intToChars v, isDigitCh c = true ∨ c = '-' := by
  unfold intToChars
  by_cases hv : v < 0
  · rw [if_pos hv]
    intro c hc
    rcases List.mem_cons.mp hc with h | h
    · exact Or.inr h
    · exact Or.inl (natToChars_digits _ c h)
  · rw [if_neg hv]
    intro c hc
    exact Or.inl (natToChars_digits _ c hc)

/-- Dropping while a predicate holds stops exactly at the first
failing character. -/
theorem dropWhile_append_of_all (p : Char → Bool) (l r : List Char)
    (hl : ∀ c ∈ l, p c = true) (hr : ∀ c, r.head? = some c → p c = false) :
    (l ++ r).dropWhile p = r := by
  induction l with
  | nil =>
    cases r with
    | nil => rfl
    | cons c rs => simp [List.dropWhile_cons, hr c rfl]
  | cons a l ih =>
    simp [List.dropWhile_cons, hl a (List.mem_cons_self _ _),
      ih (fun c hc => hl c (List.mem_cons_of_mem _ hc))]

/-- When the remainder does not start with a decimal point, no
fraction is consumed. -/
theorem fracSplit_no_dot (r : List Char) (h : r.head? ≠ some '.') :
    fracSplit r = ([], r) := by
  cases r with
  | nil => rfl
  | cons c rs =>
    have hne : ¬ c = '.' := fun hc => h (by simp [hc])
    unfold fracSplit
    dsimp only
    rw [if_neg hne]

/-- On a nonempty digit run followed by a remainder that opens neither
a fraction nor an exponent, the mantissa parser returns the digits'
value. -/
theorem strtodMag_digits (l r : List Char) (hl : ∀ c ∈ l, isDigitCh c = true)
    (hlne : l ≠ []) (hrd : ∀ c, r.head? = some c → isDigitCh c = false)
    (hrdot : r.head? ≠ some '.') (hexp : expoVal r = 0) :
    strtodMag (l ++ r) = charsToNat l := by
  unfold strtodMag
  dsimp only
  rw [takeWhile_append_of_all _ _ _ hl hrd,
    dropWhile_append_of_all _ _ _ hl hrd, fracSplit_no_dot r hrdot]
  dsimp only
  rw [if_neg (by simp [hlne]), List.append_nil, hexp]
  simp only [List.length_nil, Nat.cast_zero, sub_zero]
  unfold tenPow
  rw [if_pos le_rfl]
  simp

/-- The `strtod` model inverts the fixed-notation integer printer,
ignoring trailing garbage that opens neither a fraction nor an
exponent (such as the `]` the constructor leaves in the final
token). -/
theorem strtodInt_intToChars (v : Int) (r : List Char)
    (hrd : ∀ c, r.head? = some c → isDigitCh c = false)
    (hrdot : r.head? ≠ some '.') (hexp : expoVal r = 0) :
    strtodInt (intToChars v ++ r) = v := by
  unfold intToChars
  by_cases hv : v < 0
  · rw [if_pos hv, List.cons_append]
    unfold strtodInt
    dsimp only
    rw [if_pos rfl,
      strtodMag_digits _ _ (natToChars_digits _) (natToChars_ne_nil _) hrd hrdot hexp,
      charsToNat_natToChars]
    omega
  · rw [if_neg hv]
    rcases hsh : natToChars v.natAbs with _ | ⟨c, cs⟩
    · exact absurd hsh (natToChars_ne_nil _)
    · have hcd : isDigitCh c = true := by
        apply natToChars_digits v.natAbs
        rw [hsh]
        exact List.mem_cons_self _ _
      have hc1 : ¬ c = '-' := by
        intro h
        rw [h] at hcd
        simp [isDigitCh, digitChars] at hcd
      have hc2 : ¬ c = '+' := by
        intro h
        rw [h] at hcd
        simp [isDigitCh, digitChars] at hcd
      rw [List.cons_append]
      unfold strtodInt
      dsimp only
      rw [if_neg hc1, if_neg hc2, ← List.cons_append, ← hsh,
        strtodMag_digits _ _ (natToChars_digits _) (natToChars_ne_nil _) hrd hrdot hexp,
        charsToNat_natToChars]
      omega

/-- A bare printed integer parses back to itself. -/
theorem strtodInt_intToChars_nil (v : Int) : strtodInt (intToChars v) = v := by
  have h := strtodInt_intToChars v []
    (fun c hc => by cases hc) (by simp) rfl
  simpa using h

/-- A printed integer with the trailing `]` of the last token parses
back to itself. -/
theorem strtodInt_intToChars_bracket (v : Int) :
    strtodInt (intToChars v ++ [']']) = v := by
  refine strtodInt_intToChars v [']'] ?_ (by decide) rfl
  intro c hc
  simp only [List.head?_cons] at hc
  rw [← Option.some_inj.mp hc]
  decide

/-- Tokenization of a delimiter-free string is that one token. -/
theorem splitChars_all_nondelim (dl : List Char) (s : List Char)
    (h : ∀ c ∈ s, dl.contains c = false) : splitChars dl s = [s] := by
  induction s with
  | nil => rfl
  | cons c s ih =>
    have hc : ¬ dl.contains c = true := by
      rw [h c (List.mem_cons_self _ _)]
      exact Bool.false_ne_true
    rw [splitChars.eq_def]
    dsimp only
    rw [if_neg hc, ih (fun x hx => h x (List.mem_cons_of_mem _ hx))]

/-- Tokenization peels one delimiter-terminated token, provided the
remainder starts with a non-delimiter. -/
theorem splitChars_token_step (dl t : List Char) (d : Char) (s : List Char)
    (ht : ∀ c ∈ t, dl.contains c = false) (hd : dl.contains d = true)
    (hs : ∀ c, s.head? = some c → dl.contains c = false) (hne : s ≠ []) :
    splitChars dl (t ++ d :: s) = t :: splitChars dl s := by
  induction t with
  | nil =>
    rcases s with _ | ⟨e, es⟩
    · exact absurd rfl hne
    · have he : ¬ dl.contains e = true := by
        rw [hs e rfl]
        exact Bool.false_ne_true
      rw [List.nil_append, splitChars.eq_def]
      dsimp only
      rw [if_pos hd, if_neg he]
  | cons a t ih =>
    have ha : ¬ dl.contains a = true := by
      rw [ht a (List.mem_cons_self _ _)]
      exact Bool.false_ne_true
    rw [List.cons_append, splitChars.eq_def]
    dsimp only
    rw [if_neg ha, ih (fun c hc => ht c (List.mem_cons_of_mem _ hc))]

/-- Digit characters are not envelope delimiters. -/
theorem digit_not_delim (c : Char) (h : isDigitCh c = true) :
    envDelims.contains c = false := by
  have hm : c ∈ digitChars := by
    obtain ⟨a, ha, hab⟩ := List.contains_iff_exists_mem_beq.mp h
    rw [show c = a from beq_iff_eq.mp hab]
    exact ha
  fin_cases hm <;> decide

/-- Printed integers contain no envelope delimiter. -/
theorem intToChars_nondelim (v : Int) :
    ∀ c ∈ intToChars v, envDelims.contains c = false := by
  intro c hc
  rcases intToChars_shape v c hc with h | h
  · exact digit_not_delim c h
  · rw [h]
    decide

/-- Printed integers are nonempty. -/
theorem intToChars_ne_nil (v : Int) : intToChars v ≠ [] := by
  unfold intToChars
  by_cases hv : v < 0
  · rw [if_pos hv]
    simp
  · rw [if_neg hv]
    exact natToChars_ne_nil _

/-- A printed integer followed by anything starts with a non-delimiter. -/
theorem intToChars_head_nondelim (v : Int) (rest : List Char) :
    ∀ c, (intToChars v ++ rest).head? = some c → envDelims.contains c = false := by
  rcases hsh : intToChars v with _ | ⟨a, l⟩
  · exact absurd hsh (intToChars_ne_nil v)
  · intro c hc
    rw [List.cons_append] at hc
    rw [show c = a from (Option.some_inj.mp hc).symm]
    apply intToChars_nondelim v
    rw [hsh]
    exact List.mem_cons_self _ _

/-- A printed integer followed by anything is nonempty. -/
theorem intToChars_append_ne_nil (v : Int) (rest : List Char) :
    intToChars v ++ rest ≠ [] := by
  rcases hsh : intToChars v with _ | ⟨a, l⟩
  · exact absurd hsh (intToChars_ne_nil v)
  · simp

/-- The bracket search of the envelope constructor finds the `[` of the
`Env[` header at index 3. -/
theorem findIdx_bracket (inner : List Char) :
    List.findIdx? (fun c => c = '[') ('E' :: 'n' :: 'v' :: '[' :: inner) = some 3 := by
  simp [List.findIdx?_cons]

/-- Stripping trailing zeros yields a subset of the characters. -/
theorem stripZeros_subset (l : List Char) : ∀ c ∈ stripZeros l, c ∈ l := by
  intro c hc
  unfold stripZeros at hc
  rw [List.mem_reverse] at hc
  have h2 := (List.dropWhile_sublist _).subset hc
  rw [List.mem_reverse] at h2
  exact h2

/-- Zero-padded digit strings consist of digit characters. -/
theorem natToCharsPad_digits (width n : Nat) :
    ∀ c ∈ natToCharsPad width n, isDigitCh c = true := by
  intro c hc
  unfold natToCharsPad at hc
  rcases List.mem_append.mp hc with h | h
  · rw [(List.eq_of_mem_replicate h : c = '0')]
    decide
  · exact natToChars_digits n c h

/-- The exponent field consists of digit characters. -/
theorem sciExpChars_digits (x : Nat) :
    ∀ c ∈ sciExpChars x, isDigitCh c = true := by
  intro c hc
  unfold sciExpChars at hc
  by_cases h : x < 10
  · rw [if_pos h] at hc
    rcases List.mem_cons.mp hc with h1 | h1
    · rw [h1]
      decide
    · exact natToChars_digits x c h1
  · rw [if_neg h] at hc
    exact natToChars_digits x c hc

/-- Every character of a scientific rendering is a digit, a point, an
`e` or a plus sign. -/
theorem sciChars_shape (n : Nat) :
    ∀ c ∈ sciChars n, isDigitCh c = true ∨ c = '.' ∨ c = 'e' ∨ c = '+' := by
  intro c hc
  unfold sciChars at hc
  dsimp only at hc
  rcases List.mem_append.mp hc with h | h
  · rcases List.mem_append.mp h with h1 | h1
    · exact Or.inl (natToChars_digits _ c h1)
    · by_cases hf : stripZeros (natToCharsPad 5
          ((if 1000000 ≤ roundHalfEven n ((natToChars n).length - 6) then
              roundHalfEven n ((natToChars n).length - 6) / 10
            else roundHalfEven n ((natToChars n).length - 6)) % 100000)) = []
      · rw [if_pos hf] at h1
        cases h1
      · rw [if_neg hf] at h1
        rcases List.mem_cons.mp h1 with h2 | h2
        · exact Or.inr (Or.inl h2)
        · exact Or.inl (natToCharsPad_digits _ _ c (stripZeros_subset _ c h2))
  · rcases List.mem_cons.mp h with h1 | h1
    · exact Or.inr (Or.inr (Or.inl h1))
    · rcases List.mem_cons.mp h1 with h2 | h2
      · exact Or.inr (Or.inr (Or.inr h2))
      · exact Or.inl (sciExpChars_digits _ c h2)

/-- Every character of the default `double` rendering is a digit, a
minus sign, a point, an `e` or a plus sign. -/
theorem doubleToChars_shape (v : Int) :
    ∀ c ∈ doubleToChars v,
      isDigitCh c = true ∨ c = '-' ∨ c = '.' ∨ c = 'e' ∨ c = '+' := by
  intro c hc
  unfold doubleToChars at hc
  by_cases h1 : v.natAbs < 1000000
  · rw [if_pos h1] at hc
    rcases intToChars_shape v c hc with h | h
    · exact Or.inl h
    · exact Or.inr (Or.inl h)
  · rw [if_neg h1] at hc
    by_cases h2 : v < 0
    · rw [if_pos h2] at hc
      rcases List.mem_cons.mp hc with h | h
      · exact Or.inr (Or.inl h)
      · rcases sciChars_shape _ c h with h3 | h3 | h3 | h3
        · exact Or.inl h3
        · exact Or.inr (Or.inr (Or.inl h3))
        · exact Or.inr (Or.inr (Or.inr (Or.inl h3)))
        · exact Or.inr (Or.inr (Or.inr (Or.inr h3)))
    · rw [if_neg h2] at hc
      rcases sciChars_shape _ c hc with h3 | h3 | h3 | h3
      · exact Or.inl h3
      · exact Or.inr (Or.inr (Or.inl h3))
      · exact Or.inr (Or.inr (Or.inr (Or.inl h3)))
      · exact Or.inr (Or.inr (Or.inr (Or.inr h3)))

/-- Printed doubles contain no envelope delimiter. -/
theorem doubleToChars_nondelim (v : Int) :
    ∀ c ∈ doubleToChars v, envDelims.contains c = false := by
  intro c hc
  rcases doubleToChars_shape v c hc with h | h | h | h | h
  · exact digit_not_delim c h
  all_goals (rw [h]; decide)

/-- Printed doubles are nonempty. -/
theorem doubleToChars_ne_nil (v : Int) : doubleToChars v ≠ [] := by
  unfold doubleToChars
  by_cases h1 : v.natAbs < 1000000
  · rw [if_pos h1]
    exact intToChars_ne_nil v
  · rw [if_neg h1]
    by_cases h2 : v < 0
    · rw [if_pos h2]
      simp
    · rw [if_neg h2]
      unfold sciChars
      dsimp only
      intro h
      rcases List.append_eq_nil.mp h with ⟨h3, _⟩
      rcases List.append_eq_nil.mp h3 with ⟨h4, _⟩
      exact natToChars_ne_nil _ h4

/-- A printed double followed by anything starts with a
non-delimiter. -/
theorem doubleToChars_head_nondelim (v : Int) (rest : List Char) :
    ∀ c, (doubleToChars v ++ rest).head? = some c → envDelims.contains c = false := by
  rcases hsh : doubleToChars v with _ | ⟨a, l⟩
  · exact absurd hsh (doubleToChars_ne_nil v)
  · intro c hc
    rw [List.cons_append] at hc
    rw [show c = a from (Option.some_inj.mp hc).symm]
    apply doubleToChars_nondelim v
    rw [hsh]
    exact List.mem_cons_self _ _

/-- A printed double followed by anything is nonempty. -/
theorem doubleToChars_append_ne_nil (v : Int) (rest : List Char) :
    doubleToChars v ++ rest ≠ [] := by
  rcases hsh : doubleToChars v with _ | ⟨a, l⟩
  · exact absurd hsh (doubleToChars_ne_nil v)
  · simp

/-- Printing stays in the fixed decimal branch below 10^6. -/
theorem doubleToChars_small (v : Int) (h : v.natAbs < 1000000) :
    doubleToChars v = intToChars v := by
  unfold doubleToChars
  rw [if_pos h]

/-- The constructor tokenizes the printed form of an envelope into its
six numeric tokens (the last keeping the trailing `]`). -/
theorem envTokens_envToChars (x1 x2 y1 y2 z1 z2 : Int) :
    envTokens (envToChars ⟨x1, x2, y1, y2, z1, z2⟩) =
      [doubleToChars x1, doubleToChars x2, doubleToChars y1, doubleToChars y2,
       doubleToChars z1, doubleToChars z2 ++ [']']] := by
  unfold envTokens envToChars
  dsimp only
  rw [findIdx_bracket]
  dsimp only
  simp only [List.drop_succ_cons, List.drop_zero, List.length_cons]
  rw [List.take_of_length_le (by omega)]
  simp only [List.cons_append, List.append_assoc]
  rw [splitChars_token_step envDelims (doubleToChars x1) ':'
    (doubleToChars x2 ++ ',' :: (doubleToChars y1 ++ ':' :: (doubleToChars y2 ++ ',' ::
      (doubleToChars z1 ++ ':' :: (doubleToChars z2 ++ [']'])))))
    (doubleToChars_nondelim x1) (by decide)
    (doubleToChars_head_nondelim x2 _) (doubleToChars_append_ne_nil x2 _)]
  rw [splitChars_token_step envDelims (doubleToChars x2) ','
    (doubleToChars y1 ++ ':' :: (doubleToChars y2 ++ ',' ::
      (doubleToChars z1 ++ ':' :: (doubleToChars z2 ++ [']']))))
    (doubleToChars_nondelim x2) (by decide)
    (doubleToChars_head_nondelim y1 _) (doubleToChars_append_ne_nil y1 _)]
  rw [splitChars_token_step envDelims (doubleToChars y1) ':'
    (doubleToChars y2 ++ ',' :: (doubleToChars z1 ++ ':' :: (doubleToChars z2 ++ [']'])))
    (doubleToChars_nondelim y1) (by decide)
    (doubleToChars_head_nondelim y2 _) (doubleToChars_append_ne_nil y2 _)]
  rw [splitChars_token_step envDelims (doubleToChars y2) ','
    (doubleToChars z1 ++ ':' :: (doubleToChars z2 ++ [']']))
    (doubleToChars_nondelim y2) (by decide)
    (doubleToChars_head_nondelim z1 _) (doubleToChars_append_ne_nil z1 _)]
  rw [splitChars_token_step envDelims (doubleToChars z1) ':'
    (doubleToChars z2 ++ [']'])
    (doubleToChars_nondelim z1) (by decide)
    (doubleToChars_head_nondelim z2 _) (doubleToChars_append_ne_nil z2 _)]
  rw [splitChars_all_nondelim]
  intro c hc
  rcases List.mem_append.mp hc with h | h
  · exact doubleToChars_nondelim z2 c h
  · rw [List.mem_singleton.mp h]
    decide

/-- Counterexample to C3 as stated: at the integral extent 1234567 the
default `std::ostream` formatting prints `1.23457e+06` (6 significant
digits), which `strtod` re-parses as 1234570, so the round trip does
not reproduce the extents of every non-null envelope. -/
theorem claim_C3_counterexample :
    envelope3dOfChars (envToChars ⟨1234567, 1234567, 0, 1, 0, 1⟩) =
      some ⟨1234570, 1234570, 0, 1, 0, 1⟩ ∧
    some (Envelope3d.mk 1234570 1234570 0 1 0 1) ≠
      some (Envelope3d.mk 1234567 1234567 0 1 0 1) := by
  exact ⟨rfl, by decide⟩

/-- C3 (amended): for every envelope satisfying the data-model
invariant (non-null, `min ≤ max` per axis) whose extents stay within
the exactly-printed fixed-notation range of the default `double`
formatting (magnitude below 10^6), serializing with `operator<<` and
parsing back through the string constructor reproduces all six
extents; beyond that range the 6-significant-digit rounding of the
printer breaks the round trip (see the counterexample). -/
theorem claim_C3_amended (e : Envelope3d) (hp : e.proper)
    (hsx : e.minx.natAbs < 1000000) (hsX : e.maxx.natAbs < 1000000)
    (hsy : e.miny.natAbs < 1000000) (hsY : e.maxy.natAbs < 1000000)
    (hsz : e.minz.natAbs < 1000000) (hsZ : e.maxz.natAbs < 1000000) :
    envelope3dOfChars (envToChars e) = some e := by
  obtain ⟨x1, x2, y1, y2, z1, z2⟩ := e
  have hp2 : x1 ≤ x2 ∧ y1 ≤ y2 ∧ z1 ≤ z2 := hp
  obtain ⟨hx, hy, hz⟩ := hp2
  unfold envelope3dOfChars
  rw [envTokens_envToChars]
  dsimp only
  rw [doubleToChars_small x1 hsx, doubleToChars_small x2 hsX,
    doubleToChars_small y1 hsy, doubleToChars_small y2 hsY,
    doubleToChars_small z1 hsz, doubleToChars_small z2 hsZ]
  rw [strtodInt_intToChars_nil, strtodInt_intToChars_nil, strtodInt_intToChars_nil,
    strtodInt_intToChars_nil, strtodInt_intToChars_nil, strtodInt_intToChars_bracket]
  unfold Envelope3d.init
  simp only [Option.some.injEq, Envelope3d.mk.injEq]
  refine ⟨?_, ?_, ?_, ?_, ?_, ?_⟩ <;> omega

/-- Witness for the amended C3 at a concrete proper envelope with
mixed signs and multi-digit extents. -/
theorem claim_C3_witness :
    envelope3dOfChars (envToChars ⟨1, 22, -3, 4, 5, 6⟩) =
      some ⟨1, 22, -3, 4, 5, 6⟩ :=
  claim_C3_amended ⟨1, 22, -3, 4, 5, 6⟩ (by decide) (by decide) (by decide)
    (by decide) (by decide) (by decide) (by decide)

/-- Counterexample to C5 as stated: the constructor parses the
malformed text `Env[x:y,p:q,r:s]` without signalling any failure —
`strtod` converts each non-numeric token to `0` (null end pointer, no
error reported) and an envelope is silently produced. -/
theorem claim_C5_counterexample :
    envelope3dOfChars ("Env[x:y,p:q,r:s]".toList) =
      some ⟨0, 0, 0, 0, 0, 0⟩ := by
  rfl

/-- C5 (amended): parsing is best effort and never reports a failure
when at least six tokens are present — non-numeric tokens are read as
`0` by `strtod` and an envelope is always produced; only a token-count
shortfall reaches undefined behaviour (out-of-range vector access). -/
theorem claim_C5_amended (s : List Char) (h : 6 ≤ (envTokens s).length) :
    (envelope3dOfChars s).isSome = true := by
  unfold envelope3dOfChars
  rcases hl : envTokens s with _ | ⟨a, _ | ⟨b, _ | ⟨c, _ | ⟨d, _ | ⟨f, _ | ⟨g, rest⟩⟩⟩⟩⟩⟩ <;>
    rw [hl] at h <;>
    first
      | rfl
      | (exfalso
         simp at h)

/-- Witness for the amended C5 at the malformed six-token input. -/
theorem claim_C5_witness :
    (envelope3dOfChars ("Env[x:y,p:q,r:s]".toList)).isSome = true :=
  claim_C5_amended ("Env[x:y,p:q,r:s]".toList) (by decide)

end GeosSpec
